import Mathlib

/-!
Verification of the STM32 bootloader client in `LumosRobotics/LumosTool`
(`src/applications/lumos_simple/serial/stm32_communicator.cpp` and
`src/applications/simple_serial/serial.cpp`), as a shallow embedding:
bytes are `Nat` values reduced mod 256 where the C code truncates,
the serial line is a trace of read results, and the stateful objects
(`Serial`, `STM32Communicator`) are explicit state records.
-/

namespace SimpleSerial

/-- ACK sentinel byte (`BootloaderResponse::ACK = 0x79`). -/
def ACK : Nat := 0x79

/-- NACK sentinel byte (`BootloaderResponse::NACK = 0x1F`). -/
def NACK : Nat := 0x1F

/-- Opcode `BootloaderCommand::WRITE_MEMORY = 0x31`. -/
def WRITE_MEMORY : Nat := 0x31

/-- Opcode `BootloaderCommand::EXTENDED_ERASE = 0x44`. -/
def EXTENDED_ERASE : Nat := 0x44

/-- 8-bit bitwise complement, as C's `~x` assigned back to a `uint8_t`. -/
def compl8 (b : Nat) : Nat := 255 - b % 256

/-- `STM32Communicator::CalculateChecksum`: XOR of all bytes, accumulator
starting at 0 (`checksum = 0; for i: checksum ^= data[i]`). -/
def CalculateChecksum (data : List Nat) : Nat :=
  data.foldl (fun a b => a ^^^ b) 0

/-- The four big-endian address bytes built in
`STM32Communicator::SendCommandWithAddress`:
`addr_bytes[0] = (address >> 24) & 0xFF`, ..., `addr_bytes[3] = address & 0xFF`. -/
def addrBytes (address : Nat) : List Nat :=
  [(address >>> 24) % 256, (address >>> 16) % 256, (address >>> 8) % 256, address % 256]

/-- The 5-byte address frame of `SendCommandWithAddress`: the four
big-endian address bytes followed by
`addr_bytes[4] = addr_bytes[0] ^ addr_bytes[1] ^ addr_bytes[2] ^ addr_bytes[3]`. -/
def addrFrame (address : Nat) : List Nat :=
  addrBytes address ++
    [((address >>> 24) % 256) ^^^ ((address >>> 16) % 256) ^^^
     ((address >>> 8) % 256) ^^^ (address % 256)]

/-- The data packet assembled by `STM32Communicator::WriteMemory`:
`N-1` (one byte), the `N` data bytes, then the XOR checksum of all
preceding bytes of the packet (the loop `checksum = packet[0];
for i in 1..: checksum ^= packet[i]`). -/
def writeMemoryPacket (data : List Nat) : List Nat :=
  let packet := (data.length - 1) % 256 :: data
  packet ++ [packet.foldl (fun a b => a ^^^ b) 0]

theorem foldl_xor_eq (a : Nat) (l : List Nat) :
    l.foldl (fun x b => x ^^^ b) a = a ^^^ l.foldl (fun x b => x ^^^ b) 0 := by
  induction l generalizing a with
  | nil => simp
  | cons c t ih =>
    simp only [List.foldl_cons]
    rw [ih (a ^^^ c), ih (0 ^^^ c)]
    simp [Nat.xor_assoc]

theorem writeMemoryPacket_last (data : List Nat) :
    (writeMemoryPacket data).getLast? =
      some (((data.length - 1) % 256) ^^^ CalculateChecksum data) := by
  simp only [writeMemoryPacket, CalculateChecksum]
  rw [List.getLast?_concat]
  simp only [List.foldl_cons]
  rw [foldl_xor_eq]
  simp

/-- C1: the fifth byte of the 5-byte address frame equals the XOR of the
four big-endian address bytes; and for a payload of length `n` with
`1 ≤ n ≤ 256`, the final byte of the WriteMemory data frame equals
`(n-1) XOR d0 XOR ... XOR d(n-1)`. -/
theorem checksum_correct (address : Nat) (data : List Nat)
    (h1 : 1 ≤ data.length) (h2 : data.length ≤ 256) :
    (addrFrame address).get? 4 = some (CalculateChecksum (addrBytes address)) ∧
    (writeMemoryPacket data).getLast? =
      some ((data.length - 1) ^^^ CalculateChecksum data) := by
  constructor
  · rw [show CalculateChecksum (addrBytes address) =
        ((((0 ^^^ ((address >>> 24) % 256)) ^^^ ((address >>> 16) % 256)) ^^^
          ((address >>> 8) % 256)) ^^^ (address % 256)) by
      simp only [CalculateChecksum, addrBytes, List.foldl_cons, List.foldl_nil]]
    rw [Nat.zero_xor]
    rfl
  · rw [writeMemoryPacket_last]
    have hm : (data.length - 1) % 256 = data.length - 1 := by omega
    rw [hm]

/-- Witness for `checksum_correct` at address `0x08000000` and a concrete
3-byte payload. -/
theorem checksum_correct_witness :
    (addrFrame 0x08000000).get? 4 = some (CalculateChecksum (addrBytes 0x08000000)) ∧
    (writeMemoryPacket [0x12, 0x34, 0x56]).getLast? =
      some (([0x12, 0x34, 0x56].length - 1) ^^^ CalculateChecksum [0x12, 0x34, 0x56]) :=
  checksum_correct 0x08000000 [0x12, 0x34, 0x56] (by decide) (by decide)

/-! ## WaitForAck

`STM32Communicator::WaitForAck(timeout_ms)` polls `serial_.Read(&response, 1)`
in a loop.  We model the environment of one loop iteration as a pair: the
read result (`some b` when `Read` returned 1 byte `b`, `none` when it
returned 0) and the elapsed milliseconds observed at that iteration's
deadline check.  A trace is the (finite) list of iterations the environment
supplies; `none` as the overall result means the trace was exhausted with
the loop still polling. -/

/-- `STM32Communicator::WaitForAck`: on each iteration, an ACK byte returns
true and a NACK byte returns false immediately; any other outcome falls
through to the deadline check `elapsed >= timeout_ms`, which returns false
when it trips, and otherwise the loop continues. -/
def WaitForAck (timeout_ms : Nat) : List (Option Nat × Nat) → Option Bool
  | [] => none
  | (r, e) :: rest =>
    match r with
    | some b =>
      if b = ACK then some true
      else if b = NACK then some false
      else if timeout_ms ≤ e then some false
      else WaitForAck timeout_ms rest
    | none =>
      if timeout_ms ≤ e then some false
      else WaitForAck timeout_ms rest

/-- An iteration that neither terminates the loop nor trips the deadline:
its byte (if any) is neither ACK nor NACK and its elapsed time is below
the timeout. -/
def CleanStep (timeout_ms : Nat) (p : Option Nat × Nat) : Prop :=
  p.1 ≠ some ACK ∧ p.1 ≠ some NACK ∧ p.2 < timeout_ms

instance (t : Nat) (p : Option Nat × Nat) : Decidable (CleanStep t p) := by
  unfold CleanStep
  infer_instance

/-- The trace reaches an ACK byte after a prefix of clean iterations. -/
def AckReached (timeout_ms : Nat) (trace : List (Option Nat × Nat)) : Prop :=
  ∃ pre e rest, trace = pre ++ ((some ACK, e) :: rest) ∧
    ∀ p ∈ pre, CleanStep timeout_ms p

theorem ackReached_nil (t : Nat) : ¬ AckReached t [] := by
  rintro ⟨pre, e, rest, h, -⟩
  exact (List.append_ne_nil_of_right_ne_nil pre (List.cons_ne_nil _ _)) h.symm

theorem ackReached_head (t e : Nat) (tl : List (Option Nat × Nat)) :
    AckReached t ((some ACK, e) :: tl) :=
  ⟨[], e, tl, rfl, by intro p hp; exact absurd hp (List.not_mem_nil p)⟩

theorem ackReached_cons (t : Nat) (h : Option Nat × Nat)
    (tl : List (Option Nat × Nat)) (hh : h.1 ≠ some ACK) :
    AckReached t (h :: tl) ↔ CleanStep t h ∧ AckReached t tl := by
  constructor
  · rintro ⟨pre, e, rest, heq, hclean⟩
    cases pre with
    | nil =>
      simp only [List.nil_append, List.cons.injEq] at heq
      exact absurd (by rw [heq.1]) hh
    | cons q pre' =>
      simp only [List.cons_append, List.cons.injEq] at heq
      refine ⟨heq.1 ▸ hclean q (List.mem_cons_self q pre'), pre', e, rest, heq.2, ?_⟩
      intro p hp
      exact hclean p (List.mem_cons_of_mem q hp)
  · rintro ⟨hc, pre, e, rest, heq, hclean⟩
    refine ⟨h :: pre, e, rest, by rw [heq, List.cons_append], ?_⟩
    intro p hp
    rcases List.mem_cons.mp hp with h1 | h2
    · exact h1 ▸ hc
    · exact hclean p h2

theorem waitForAck_cons_ack (t e : Nat) (tl : List (Option Nat × Nat)) :
    WaitForAck t ((some ACK, e) :: tl) = some true := by
  simp [WaitForAck]

theorem waitForAck_cons_nack (t e : Nat) (tl : List (Option Nat × Nat)) :
    WaitForAck t ((some NACK, e) :: tl) = some false := by
  simp [WaitForAck, NACK, ACK]

theorem waitForAck_cons_other (t b e : Nat) (tl : List (Option Nat × Nat))
    (hb : b ≠ ACK) (hn : b ≠ NACK) :
    WaitForAck t ((some b, e) :: tl) =
      if t ≤ e then some false else WaitForAck t tl := by
  simp [WaitForAck, hb, hn]

theorem waitForAck_cons_none (t e : Nat) (tl : List (Option Nat × Nat)) :
    WaitForAck t ((none, e) :: tl) =
      if t ≤ e then some false else WaitForAck t tl := by
  simp [WaitForAck]

theorem waitForAck_true_iff (t : Nat) (trace : List (Option Nat × Nat)) :
    WaitForAck t trace = some true ↔ AckReached t trace := by
  induction trace with
  | nil =>
    constructor
    · intro h; exact absurd h (by simp [WaitForAck])
    · intro h; exact absurd h (ackReached_nil t)
  | cons p tl ih =>
    obtain ⟨r, e⟩ := p
    cases r with
    | some b =>
      by_cases hb : b = ACK
      · subst hb
        rw [waitForAck_cons_ack]
        exact ⟨fun _ => ackReached_head t e tl, fun _ => rfl⟩
      · by_cases hn : b = NACK
        · subst hn
          rw [waitForAck_cons_nack]
          constructor
          · intro h; cases h
          · intro h
            rw [ackReached_cons t (some NACK, e) tl (by simp [ACK, NACK])] at h
            exact absurd rfl h.1.2.1
        · rw [waitForAck_cons_other t b e tl hb hn,
            ackReached_cons t (some b, e) tl (by simpa using hb)]
          by_cases he : t ≤ e
          · rw [if_pos he]
            constructor
            · intro h; cases h
            · intro h
              have := h.1.2.2
              simp only at this
              omega
          · rw [if_neg he, ih]
            have hc : CleanStep t (some b, e) :=
              ⟨by simpa using hb, by simpa using hn, by omega⟩
            exact ⟨fun h => ⟨hc, h⟩, fun h => h.2⟩
    | none =>
      rw [waitForAck_cons_none, ackReached_cons t (none, e) tl (by simp)]
      by_cases he : t ≤ e
      · rw [if_pos he]
        constructor
        · intro h; cases h
        · intro h
          have := h.1.2.2
          simp only at this
          omega
      · rw [if_neg he, ih]
        have hc : CleanStep t (none, e) := ⟨by simp, by simp, by omega⟩
        exact ⟨fun h => ⟨hc, h⟩, fun h => h.2⟩

theorem waitForAck_nack (t : Nat) (pre : List (Option Nat × Nat)) (e : Nat)
    (rest : List (Option Nat × Nat)) (hclean : ∀ p ∈ pre, CleanStep t p) :
    WaitForAck t (pre ++ ((some NACK, e) :: rest)) = some false := by
  induction pre with
  | nil =>
    rw [List.nil_append, waitForAck_cons_nack]
  | cons q tl ih =>
    obtain ⟨r, er⟩ := q
    obtain ⟨hq1, hq2, hq3⟩ := hclean (r, er) (List.mem_cons_self _ tl)
    have htl : ∀ p ∈ tl, CleanStep t p := fun p hp => hclean p (List.mem_cons_of_mem _ hp)
    simp only at hq3
    cases r with
    | some b =>
      rw [List.cons_append, waitForAck_cons_other t b er _ (by simpa using hq1)
        (by simpa using hq2), if_neg (by omega : ¬ t ≤ er)]
      exact ih htl
    | none =>
      rw [List.cons_append, waitForAck_cons_none, if_neg (by omega : ¬ t ≤ er)]
      exact ih htl

theorem waitForAck_skip_byte (t b e : Nat) (rest : List (Option Nat × Nat))
    (hb : b ≠ ACK) (hn : b ≠ NACK) (he : e < t) :
    WaitForAck t ((some b, e) :: rest) = WaitForAck t rest := by
  rw [waitForAck_cons_other t b e rest hb hn, if_neg (by omega : ¬ t ≤ e)]

theorem waitForAck_skip_none (t e : Nat) (rest : List (Option Nat × Nat))
    (he : e < t) :
    WaitForAck t ((none, e) :: rest) = WaitForAck t rest := by
  rw [waitForAck_cons_none, if_neg (by omega : ¬ t ≤ e)]

/-- With no ACK/NACK byte anywhere in the trace, the loop returns false
precisely when some iteration observes the deadline passed; otherwise it
is still polling. -/
theorem waitForAck_noise (t : Nat) (trace : List (Option Nat × Nat))
    (hq : ∀ p ∈ trace, p.1 ≠ some ACK ∧ p.1 ≠ some NACK) :
    WaitForAck t trace = some false ↔ ∃ p ∈ trace, t ≤ p.2 := by
  induction trace with
  | nil => simp [WaitForAck]
  | cons q tl ih =>
    obtain ⟨r, e⟩ := q
    have hqh := hq (r, e) (List.mem_cons_self _ tl)
    have htl : ∀ p ∈ tl, p.1 ≠ some ACK ∧ p.1 ≠ some NACK :=
      fun p hp => hq p (List.mem_cons_of_mem _ hp)
    by_cases he : t ≤ e
    · have : WaitForAck t ((r, e) :: tl) = some false := by
        cases r with
        | some b =>
          rw [waitForAck_cons_other t b e tl (by simpa using hqh.1)
            (by simpa using hqh.2), if_pos he]
        | none =>
          rw [waitForAck_cons_none, if_pos he]
      rw [this]
      simp only [true_iff]
      exact ⟨(r, e), List.mem_cons_self _ tl, he⟩
    · have hstep : WaitForAck t ((r, e) :: tl) = WaitForAck t tl := by
        cases r with
        | some b =>
          exact waitForAck_skip_byte t b e tl (by simpa using hqh.1)
            (by simpa using hqh.2) (by omega)
        | none => exact waitForAck_skip_none t e tl (by omega)
      rw [hstep, ih htl]
      constructor
      · rintro ⟨p, hp, hpt⟩
        exact ⟨p, List.mem_cons_of_mem _ hp, hpt⟩
      · rintro ⟨p, hp, hpt⟩
        rcases List.mem_cons.mp hp with h1 | h2
        · exact absurd (h1 ▸ hpt) (by simp; omega)
        · exact ⟨p, h2, hpt⟩

/-- C4: `WaitForAck(timeout)` returns true iff an ACK byte is read after a
prefix of iterations that saw neither ACK nor NACK nor the deadline; it
returns false when a NACK byte arrives after such a prefix (regardless of
the deadline at that iteration); any other byte, or an empty read, below
the deadline is discarded and polling continues; and on a trace with no
ACK/NACK at all it returns false exactly when some iteration observes the
deadline passed — never before the timeout has elapsed. -/
theorem waitForAck_spec (t : Nat) (trace : List (Option Nat × Nat)) :
    (WaitForAck t trace = some true ↔ AckReached t trace) ∧
    (∀ pre e rest, trace = pre ++ ((some NACK, e) :: rest) →
      (∀ p ∈ pre, CleanStep t p) → WaitForAck t trace = some false) ∧
    (∀ b e rest, trace = (some b, e) :: rest → b ≠ ACK → b ≠ NACK → e < t →
      WaitForAck t trace = WaitForAck t rest) ∧
    (∀ e rest, trace = (none, e) :: rest → e < t →
      WaitForAck t trace = WaitForAck t rest) ∧
    ((∀ p ∈ trace, p.1 ≠ some ACK ∧ p.1 ≠ some NACK) →
      (WaitForAck t trace = some false ↔ ∃ p ∈ trace, t ≤ p.2)) := by
  refine ⟨waitForAck_true_iff t trace, ?_, ?_, ?_, waitForAck_noise t trace⟩
  · intro pre e rest heq hclean
    rw [heq]
    exact waitForAck_nack t pre e rest hclean
  · intro b e rest heq hb hn he
    rw [heq]
    exact waitForAck_skip_byte t b e rest hb hn he
  · intro e rest heq he
    rw [heq]
    exact waitForAck_skip_none t e rest he

/-- Witness for `waitForAck_spec`: a noisy byte and an empty read below
the deadline are discarded, then ACK just before the deadline yields
true. -/
theorem waitForAck_spec_witness :
    WaitForAck 1000 [(some 0x55, 10), (none, 500), (some ACK, 999)] = some true :=
  (waitForAck_spec 1000 [(some 0x55, 10), (none, 500), (some ACK, 999)]).1.mpr
    ⟨[(some 0x55, 10), (none, 500)], 999, [], rfl, by decide⟩

/-! ## Flash chunking

`STM32Communicator::Flash` iterates the firmware image with
`chunk_size = min(remaining, 256)`, calling `WriteMemory(address, chunk)`
and advancing `address += chunk_size` (a `uint32_t`, hence mod 2^32).
`flashWrites` is the sequence of `(address, chunk)` pairs the loop
produces when every write succeeds; `flashLoop` additionally takes an
oracle `writeOk` telling whether the `k`-th WriteMemory exchange
succeeds, and returns the overall result, the writes actually attempted,
and the stored error. -/

def flashWrites (address : Nat) (data : List Nat) : List (Nat × List Nat) :=
  if h : data = [] then []
  else
    (address, data.take 256) ::
      flashWrites ((address + (data.take 256).length) % 4294967296) (data.drop 256)
termination_by data.length
decreasing_by
  simp only [List.length_drop]
  have hne : data.length ≠ 0 := fun hl => h (List.length_eq_zero.mp hl)
  omega

theorem flashWrites_nil (a : Nat) : flashWrites a [] = [] := by
  rw [flashWrites]
  simp

theorem flashWrites_cons (a : Nat) (data : List Nat) (h : data ≠ []) :
    flashWrites a data =
      (a, data.take 256) ::
        flashWrites ((a + (data.take 256).length) % 4294967296) (data.drop 256) := by
  rw [flashWrites]
  simp [h]

theorem flashWrites_length (a : Nat) (data : List Nat) :
    (flashWrites a data).length = (data.length + 255) / 256 := by
  by_cases h : data = []
  · subst h; simp [flashWrites_nil]
  · rw [flashWrites_cons a data h]
    simp only [List.length_cons]
    rw [flashWrites_length _ (data.drop 256)]
    have hne : data.length ≠ 0 := fun hl => h (List.length_eq_zero.mp hl)
    simp only [List.length_drop]
    omega
termination_by data.length
decreasing_by
  simp only [List.length_drop]
  have hne : data.length ≠ 0 := fun hl => h (List.length_eq_zero.mp hl)
  omega

theorem flashWrites_ne_nil (a : Nat) (data : List Nat) (h : data ≠ []) :
    flashWrites a data ≠ [] := by
  rw [flashWrites_cons a data h]
  exact List.cons_ne_nil _ _

theorem flashWrites_sizes (a : Nat) (data : List Nat) :
    ∀ p ∈ flashWrites a data, p.2.length ≤ 256 := by
  intro p hp
  by_cases h : data = []
  · rw [h, flashWrites_nil] at hp
    exact absurd hp (List.not_mem_nil p)
  · rw [flashWrites_cons a data h] at hp
    rcases List.mem_cons.mp hp with h1 | h2
    · rw [h1]
      simp only [List.length_take]
      omega
    · exact flashWrites_sizes _ (data.drop 256) p h2
termination_by data.length
decreasing_by
  simp only [List.length_drop]
  have hne : data.length ≠ 0 := fun hl => h (List.length_eq_zero.mp hl)
  omega

theorem flashWrites_addr (a : Nat) (data : List Nat) (k : Nat)
    (ha : a + data.length ≤ 4294967296)
    (hk : k < (flashWrites a data).length) :
    ∃ chunk, (flashWrites a data).get? k = some (a + 256 * k, chunk) := by
  by_cases h : data = []
  · rw [h, flashWrites_nil] at hk
    exact absurd hk (by simp)
  · have hne : data.length ≠ 0 := fun hl => h (List.length_eq_zero.mp hl)
    rw [flashWrites_cons a data h]
    cases k with
    | zero => exact ⟨data.take 256, by simp⟩
    | succ k' =>
      rw [flashWrites_cons a data h, List.length_cons] at hk
      by_cases hbig : data.length ≤ 256
      · rw [show data.drop 256 = [] from
          List.drop_eq_nil_of_le (by omega), flashWrites_nil] at hk
        simp at hk
      · have hc : (data.take 256).length = 256 := by
          simp only [List.length_take]
          omega
        have hmod : (a + (data.take 256).length) % 4294967296 = a + 256 := by
          rw [hc]
          have : a + 256 < 4294967296 := by omega
          omega
        rw [List.get?_cons_succ, hmod]
        have ha' : (a + 256) + (data.drop 256).length ≤ 4294967296 := by
          simp only [List.length_drop]
          omega
        have hk' : k' < (flashWrites (a + 256) (data.drop 256)).length := by
          rw [hmod] at hk
          omega
        obtain ⟨chunk, hchunk⟩ := flashWrites_addr (a + 256) (data.drop 256) k' ha' hk'
        refine ⟨chunk, ?_⟩
        rw [hchunk]
        congr 2
        omega
termination_by data.length
decreasing_by
  simp only [List.length_drop]
  omega

theorem flashWrites_last (a : Nat) (data : List Nat) (h : data ≠ []) :
    ∀ p, (flashWrites a data).getLast? = some p →
      p.2.length = if data.length % 256 = 0 then 256 else data.length % 256 := by
  intro p hp
  have hne : data.length ≠ 0 := fun hl => h (List.length_eq_zero.mp hl)
  rw [flashWrites_cons a data h] at hp
  by_cases hbig : data.length ≤ 256
  · rw [show data.drop 256 = [] from List.drop_eq_nil_of_le (by omega),
      flashWrites_nil, List.getLast?_singleton] at hp
    have : p = (a, data.take 256) := by injection hp with h'; exact h'.symm
    rw [this]
    simp only [List.length_take]
    by_cases h256 : data.length = 256
    · rw [if_pos (by omega)]
      omega
    · rw [if_neg (by omega)]
      omega
  · have hdne : data.drop 256 ≠ [] := by
      intro hd
      have := congrArg List.length hd
      simp only [List.length_drop, List.length_nil] at this
      omega
    rw [flashWrites_cons _ (data.drop 256) hdne, List.getLast?_cons_cons,
      ← flashWrites_cons _ (data.drop 256) hdne] at hp
    have := flashWrites_last _ (data.drop 256) hdne p hp
    rw [this]
    simp only [List.length_drop]
    have hm : (data.length - 256) % 256 = data.length % 256 := by omega
    rw [hm]
termination_by data.length
decreasing_by
  simp only [List.length_drop]
  omega

/-- The chunk-write loop of `STM32Communicator::Flash`, with `writeOk k`
telling whether the `k`-th `WriteMemory` exchange succeeds.  Returns the
overall result, the `(address, chunk)` writes attempted in order, and the
error stored by `SetError` (the code formats the failing address with
`std::to_string`, i.e. in decimal, after a literal `"0x"`). -/
def flashLoop (writeOk : Nat → Bool) (k : Nat) (address : Nat) (data : List Nat) :
    Bool × List (Nat × List Nat) × Option String :=
  if h : data = [] then (true, [], none)
  else
    if writeOk k then
      let r := flashLoop writeOk (k + 1)
        ((address + (data.take 256).length) % 4294967296) (data.drop 256)
      (r.1, (address, data.take 256) :: r.2.1, r.2.2)
    else
      (false, [(address, data.take 256)],
        some ("Failed to write memory at address 0x" ++ toString address))
termination_by data.length
decreasing_by
  simp only [List.length_drop]
  have hne : data.length ≠ 0 := fun hl => h (List.length_eq_zero.mp hl)
  omega

theorem flashLoop_nil (writeOk : Nat → Bool) (k a : Nat) :
    flashLoop writeOk k a [] = (true, [], none) := by
  rw [flashLoop]
  simp

theorem flashLoop_cons_ok (writeOk : Nat → Bool) (k a : Nat) (data : List Nat)
    (h : data ≠ []) (hw : writeOk k = true) :
    flashLoop writeOk k a data =
      ((flashLoop writeOk (k + 1)
          ((a + (data.take 256).length) % 4294967296) (data.drop 256)).1,
        (a, data.take 256) ::
          (flashLoop writeOk (k + 1)
            ((a + (data.take 256).length) % 4294967296) (data.drop 256)).2.1,
        (flashLoop writeOk (k + 1)
          ((a + (data.take 256).length) % 4294967296) (data.drop 256)).2.2) := by
  rw [flashLoop]
  simp [h, hw]

theorem flashLoop_cons_fail (writeOk : Nat → Bool) (k a : Nat) (data : List Nat)
    (h : data ≠ []) (hw : writeOk k = false) :
    flashLoop writeOk k a data =
      (false, [(a, data.take 256)],
        some ("Failed to write memory at address 0x" ++ toString a)) := by
  rw [flashLoop]
  simp [h, hw]

theorem flashLoop_all_ok (writeOk : Nat → Bool) (k a : Nat) (data : List Nat)
    (hok : ∀ j, writeOk j = true) :
    flashLoop writeOk k a data = (true, flashWrites a data, none) := by
  by_cases h : data = []
  · rw [h, flashLoop_nil, flashWrites_nil]
  · rw [flashLoop_cons_ok writeOk k a data h (hok k),
      flashLoop_all_ok writeOk (k + 1) _ (data.drop 256) hok,
      flashWrites_cons a data h]
termination_by data.length
decreasing_by
  simp only [List.length_drop]
  have hne : data.length ≠ 0 := fun hl => h (List.length_eq_zero.mp hl)
  omega

theorem flashLoop_fail (writeOk : Nat → Bool) (j0 k a : Nat) (data : List Nat)
    (hpre : ∀ j, j < k → writeOk (j0 + j) = true)
    (hfail : writeOk (j0 + k) = false) :
    ∀ addr chunk, (flashWrites a data).get? k = some (addr, chunk) →
      flashLoop writeOk j0 a data =
        (false, (flashWrites a data).take (k + 1),
          some ("Failed to write memory at address 0x" ++ toString addr)) := by
  intro addr chunk hget
  have h : data ≠ [] := by
    intro hd
    rw [hd, flashWrites_nil] at hget
    simp at hget
  cases k with
  | zero =>
    have hw : writeOk j0 = false := hfail
    rw [flashWrites_cons a data h] at hget
    rw [List.get?_cons_zero] at hget
    injection hget with hget'
    have haddr : addr = a := by
      have := congrArg Prod.fst hget'
      simpa using this.symm
    rw [flashLoop_cons_fail writeOk j0 a data h hw, haddr,
      flashWrites_cons a data h]
    simp
  | succ k' =>
    have hw : writeOk j0 = true := by
      have := hpre 0 (Nat.succ_pos k')
      simpa using this
    rw [flashWrites_cons a data h, List.get?_cons_succ] at hget
    have hpre' : ∀ j, j < k' → writeOk ((j0 + 1) + j) = true := by
      intro j hj
      have := hpre (j + 1) (by omega)
      rwa [show j0 + (j + 1) = (j0 + 1) + j by omega] at this
    have hfail' : writeOk ((j0 + 1) + k') = false := by
      rwa [show j0 + (k' + 1) = (j0 + 1) + k' by omega] at hfail
    have ih := flashLoop_fail writeOk (j0 + 1) k'
      ((a + (data.take 256).length) % 4294967296) (data.drop 256)
      hpre' hfail' addr chunk hget
    rw [flashLoop_cons_ok writeOk j0 a data h hw, ih,
      flashWrites_cons a data h, List.take_succ_cons]
termination_by data.length
decreasing_by
  simp only [List.length_drop]
  have hne : data.length ≠ 0 := fun hl => h (List.length_eq_zero.mp hl)
  omega

/-- `STM32Communicator::Flash`: checks the connection, rejects an empty
image, erases (modelled by the `eraseOk` oracle), then runs the chunk
loop. -/
def Flash (is_connected : Bool) (eraseOk : Bool) (writeOk : Nat → Bool)
    (start_address : Nat) (data : List Nat) :
    Bool × List (Nat × List Nat) × Option String :=
  if ¬ is_connected then (false, [], some "Not connected to any port")
  else if data = [] then (false, [], some "Firmware data is empty")
  else if ¬ eraseOk then (false, [], some "Failed to erase memory")
  else flashLoop writeOk 0 start_address data

/-- C2: when connected, the image is non-empty, its span fits in the
32-bit address space, and every exchange succeeds, `Flash` performs
exactly `ceil(N/256)` WriteMemory calls, each of at most 256 bytes, at
addresses `start, start+256, start+512, ...`, and the final chunk has
length `N mod 256` when that is nonzero and exactly 256 otherwise. -/
theorem flash_chunking (start : Nat) (data : List Nat) (writeOk : Nat → Bool)
    (hne : data ≠ []) (hstart : start + data.length ≤ 4294967296)
    (hok : ∀ j, writeOk j = true) :
    Flash true true writeOk start data = (true, flashWrites start data, none) ∧
    (flashWrites start data).length = (data.length + 255) / 256 ∧
    (∀ p ∈ flashWrites start data, p.2.length ≤ 256) ∧
    (∀ k, k < (flashWrites start data).length →
      ∃ chunk, (flashWrites start data).get? k = some (start + 256 * k, chunk)) ∧
    (∀ p, (flashWrites start data).getLast? = some p →
      p.2.length = if data.length % 256 = 0 then 256 else data.length % 256) := by
  refine ⟨?_, flashWrites_length start data, flashWrites_sizes start data,
    fun k hk => flashWrites_addr start data k hstart hk,
    flashWrites_last start data hne⟩
  have hF : Flash true true writeOk start data = flashLoop writeOk 0 start data := by
    simp [Flash, hne]
  rw [hF]
  exact flashLoop_all_ok writeOk 0 start data hok

theorem replicate_ne_nil (n x : Nat) (hn : n ≠ 0) : List.replicate n x ≠ [] := by
  intro h
  have hl := congrArg List.length h
  rw [List.length_replicate] at hl
  exact hn (by simpa using hl)

/-- Witness for `flash_chunking`: a 300-byte image at `0x08000000` yields
two writes. -/
theorem flash_chunking_witness :
    Flash true true (fun _ => true) 0x08000000 (List.replicate 300 0xAB) =
      (true, flashWrites 0x08000000 (List.replicate 300 0xAB), none) ∧
    (flashWrites 0x08000000 (List.replicate 300 0xAB)).length = 2 := by
  have h := flash_chunking 0x08000000 (List.replicate 300 0xAB) (fun _ => true)
    (replicate_ne_nil 300 0xAB (by omega))
    (by rw [List.length_replicate]; omega) (fun j => rfl)
  refine ⟨h.1, ?_⟩
  rw [h.2.1, List.length_replicate]

/-- C3: if the erase succeeds, the first `k` chunk writes succeed, and
the `k`-th fails, `Flash` returns failure, attempts exactly the first
`k+1` writes (none after the failing chunk), and stores an error naming
the running address `start + 256*k` of the failing chunk. -/
theorem flash_partial_failure (start k : Nat) (data : List Nat) (writeOk : Nat → Bool)
    (hne : data ≠ []) (hstart : start + data.length ≤ 4294967296)
    (hk : k < (flashWrites start data).length)
    (hpre : ∀ j, j < k → writeOk j = true) (hfail : writeOk k = false) :
    Flash true true writeOk start data =
      (false, (flashWrites start data).take (k + 1),
        some ("Failed to write memory at address 0x" ++ toString (start + 256 * k))) ∧
    ((flashWrites start data).take (k + 1)).length = k + 1 := by
  obtain ⟨chunk, hchunk⟩ := flashWrites_addr start data k hstart hk
  have hpre0 : ∀ j, j < k → writeOk (0 + j) = true := by
    intro j hj
    rw [Nat.zero_add]
    exact hpre j hj
  have hfail0 : writeOk (0 + k) = false := by
    rw [Nat.zero_add]
    exact hfail
  have hmain := flashLoop_fail writeOk 0 k start data hpre0 hfail0
    (start + 256 * k) chunk hchunk
  constructor
  · have hF : Flash true true writeOk start data = flashLoop writeOk 0 start data := by
      simp [Flash, hne]
    rw [hF]
    exact hmain
  · rw [List.length_take]
    omega

/-- Witness for `flash_partial_failure`: a 600-byte image (three chunks)
whose second write fails stops after two writes. -/
theorem flash_partial_failure_witness :
    Flash true true (fun j => j == 0) 0x08000000 (List.replicate 600 0x01) =
      (false, (flashWrites 0x08000000 (List.replicate 600 0x01)).take 2,
        some ("Failed to write memory at address 0x" ++ toString (0x08000000 + 256 * 1))) ∧
    ((flashWrites 0x08000000 (List.replicate 600 0x01)).take 2).length = 2 := by
  have h := flash_partial_failure 0x08000000 1 (List.replicate 600 0x01) (fun j => j == 0)
    (replicate_ne_nil 600 0x01 (by omega))
    (by rw [List.length_replicate]; omega)
    (by rw [flashWrites_length, List.length_replicate]; omega)
    (by intro j hj; have : j = 0 := by omega
        rw [this]; rfl)
    (by rfl)
  exact h

/-! ## WriteMemory and EraseMemory transmissions -/

/-- The two command bytes sent by `STM32Communicator::SendCommand`:
`[cmd, ~cmd]`. -/
def commandFrame (cmd : Nat) : List Nat := [cmd % 256, compl8 cmd]

/-- `STM32Communicator::WriteMemory`, observed as (result, bytes written
to the transport).  `ack1`, `ack2`, `ack3` are the outcomes of the three
ACK waits (after the command frame, the address frame, and the data
packet).  A payload length of 0 or more than 256 is rejected up front,
before anything is transmitted. -/
def WriteMemory (ack1 ack2 ack3 : Bool) (address : Nat) (data : List Nat) :
    Bool × List Nat :=
  if data.length = 0 ∨ data.length > 256 then (false, [])
  else if ¬ ack1 then (false, commandFrame WRITE_MEMORY)
  else if ¬ ack2 then (false, commandFrame WRITE_MEMORY ++ addrFrame address)
  else (ack3, commandFrame WRITE_MEMORY ++ addrFrame address ++ writeMemoryPacket data)

/-- C5: for a payload of length 0 or greater than 256, `WriteMemory`
fails without transmitting a single byte, whatever the address and
however the device would have answered. -/
theorem writeMemory_rejects (ack1 ack2 ack3 : Bool) (address : Nat)
    (data : List Nat) (h : data.length = 0 ∨ data.length > 256) :
    WriteMemory ack1 ack2 ack3 address data = (false, []) := by
  rw [WriteMemory, if_pos h]

/-- Witness for `writeMemory_rejects`: the empty payload and a 257-byte
payload are both rejected with nothing transmitted. -/
theorem writeMemory_rejects_witness :
    WriteMemory true true true 0x08000000 [] = (false, []) ∧
    WriteMemory true true true 0x08000000 (List.replicate 257 0) = (false, []) :=
  ⟨writeMemory_rejects true true true 0x08000000 [] (Or.inl rfl),
   writeMemory_rejects true true true 0x08000000 (List.replicate 257 0)
     (Or.inr (by rw [List.length_replicate]; omega))⟩

/-- `STM32Communicator::EraseMemory`, observed as (result, frames written
to the transport, timeout passed to each `WaitForAck` call).  `ack1` and
`ack2` are the outcomes of the two ACK waits.  Both branches of
`full_erase` send the global-erase selector `[0xFF, 0xFF, 0x00]`
(sector-selective erase is not implemented). -/
def EraseMemory (ack1 ack2 : Bool) (full_erase : Bool) :
    Bool × List (List Nat) × List Nat :=
  if ¬ ack1 then (false, [commandFrame EXTENDED_ERASE], [1000])
  else if full_erase then
    (ack2, [commandFrame EXTENDED_ERASE, [0xFF, 0xFF, 0x00]], [1000, 30000])
  else
    (ack2, [commandFrame EXTENDED_ERASE, [0xFF, 0xFF, 0x00]], [1000, 30000])

/-- C6: for either value of `full_erase`, `EraseMemory` transmits exactly
`[0x44, 0xBB]`, then (after ACK) exactly `[0xFF, 0xFF, 0x00]`, and waits
for the final ACK with a 30-second timeout while the first wait used the
default 1-second timeout. -/
theorem eraseMemory_sequencing (full_erase ack2 : Bool) :
    EraseMemory true ack2 full_erase =
      (ack2, [[0x44, 0xBB], [0xFF, 0xFF, 0x00]], [1000, 30000]) := by
  cases full_erase <;>
    simp [EraseMemory, commandFrame, EXTENDED_ERASE, compl8]

/-! ## EnterBootloader -/

/-- Observable side effects `STM32Communicator::EnterBootloader` performs
on the transport. -/
inductive SerialEvent where
  | pulseDTR (duration_ms : Nat) (active_low : Bool)
  | sleep (ms : Nat)
  | flush
  | write (bytes : List Nat)
deriving DecidableEq

/-- `STM32Communicator::EnterBootloader`: when connected, optionally
pulses DTR (`PulseDTR(100, true)`, i.e. 100 ms active-low, modelled by
the `pulseOk` outcome) and sleeps 100 ms, flushes, writes the sync byte
`0x7F`, and waits for ACK with a 1000 ms timeout.  The result is `none`
when the supplied trace ends while the ACK wait is still polling. -/
def EnterBootloader (is_connected pulse_dtr pulseOk : Bool)
    (trace : List (Option Nat × Nat)) :
    Option (Bool × List SerialEvent × Option String) :=
  if ¬ is_connected then some (false, [], some "Not connected to any port")
  else if pulse_dtr ∧ ¬ pulseOk then
    some (false, [SerialEvent.pulseDTR 100 true], some "Failed to pulse DTR")
  else
    let evts := (if pulse_dtr then [SerialEvent.pulseDTR 100 true, SerialEvent.sleep 100]
      else []) ++ [SerialEvent.flush, SerialEvent.write [0x7F]]
    match WaitForAck 1000 trace with
    | some true => some (true, evts, none)
    | some false => some (false, evts, some "No ACK received from bootloader")
    | none => none

/-- C7: when connected (with the DTR pulse succeeding), `EnterBootloader`
performs the 100 ms active-low DTR pulse and 100 ms wait exactly when
reset is requested, then flushes, writes the single byte `0x7F`, and
waits for ACK with a 1-second timeout; it succeeds iff ACK is observed,
fails with the no-bootloader-response error on NACK or timeout, and on a
transport that never produces a byte it fails exactly when the 1-second
deadline has been observed to elapse — never before. -/
theorem enterBootloader_spec (pulse_dtr : Bool) (trace : List (Option Nat × Nat)) :
    (EnterBootloader true pulse_dtr true trace =
        some (true,
          (if pulse_dtr then [SerialEvent.pulseDTR 100 true, SerialEvent.sleep 100]
            else []) ++ [SerialEvent.flush, SerialEvent.write [0x7F]], none) ↔
      WaitForAck 1000 trace = some true) ∧
    (WaitForAck 1000 trace = some false →
      EnterBootloader true pulse_dtr true trace =
        some (false,
          (if pulse_dtr then [SerialEvent.pulseDTR 100 true, SerialEvent.sleep 100]
            else []) ++ [SerialEvent.flush, SerialEvent.write [0x7F]],
          some "No ACK received from bootloader")) ∧
    ((∀ p ∈ trace, p.1 = none) →
      ((∃ r, EnterBootloader true pulse_dtr true trace = some (false, r)) ↔
        ∃ p ∈ trace, 1000 ≤ p.2)) := by
  refine ⟨?_, ?_, ?_⟩
  · cases hw : WaitForAck 1000 trace with
    | none => simp [EnterBootloader, hw]
    | some b => cases b <;> simp [EnterBootloader, hw]
  · intro hw
    simp [EnterBootloader, hw]
  · intro hnone
    have hq : ∀ p ∈ trace, p.1 ≠ some ACK ∧ p.1 ≠ some NACK := by
      intro p hp
      rw [hnone p hp]
      exact ⟨by simp, by simp⟩
    have hnoise := waitForAck_noise 1000 trace hq
    constructor
    · rintro ⟨r, hr⟩
      cases hw : WaitForAck 1000 trace with
      | none => simp [EnterBootloader, hw] at hr
      | some b =>
        cases b with
        | true =>
          rw [waitForAck_true_iff] at hw
          obtain ⟨pre, e, rest, heq, -⟩ := hw
          have : (some ACK, e).1 = none :=
            hnone (some ACK, e) (by rw [heq]; exact List.mem_append_right pre (List.mem_cons_self _ _))
          simp at this
        | false => exact hnoise.mp hw
    · intro hex
      have hw : WaitForAck 1000 trace = some false := hnoise.mpr hex
      refine ⟨((if pulse_dtr then [SerialEvent.pulseDTR 100 true, SerialEvent.sleep 100]
        else []) ++ [SerialEvent.flush, SerialEvent.write [0x7F]],
        some "No ACK received from bootloader"), ?_⟩
      simp [EnterBootloader, hw]

/-- Witness for `enterBootloader_spec`: a transport answering ACK after
one noisy byte makes `EnterBootloader` (with reset) succeed. -/
theorem enterBootloader_spec_witness :
    EnterBootloader true true true [(some 0x42, 10), (some ACK, 20)] =
      some (true,
        [SerialEvent.pulseDTR 100 true, SerialEvent.sleep 100,
          SerialEvent.flush, SerialEvent.write [0x7F]], none) := by
  have h := (enterBootloader_spec true [(some 0x42, 10), (some ACK, 20)]).1.mpr
    (by rw [waitForAck_skip_byte 1000 0x42 10 _ (by decide) (by decide) (by omega),
          waitForAck_cons_ack])
  simpa using h

/-! ## The Serial transport (`src/applications/simple_serial/serial.cpp`)

State of a `Serial` object (POSIX branch): the file descriptor `fd_`
(`-1` when closed), the `is_open_` flag, the stored port name and
configuration, and the `last_error_` string. -/

structure SerialConfig where
  baud_rate : Int
  data_bits : Int
  stop_bits : Int
  parity : Char
  timeout_ms : Int
deriving DecidableEq

structure Serial where
  fd : Int
  is_open : Bool
  port_name : String
  config : SerialConfig
  last_error : String
deriving DecidableEq

/-- `Serial::SetError`. -/
def Serial.SetError (s : Serial) (e : String) : Serial := { s with last_error := e }

/-- `Serial::IsOpen`. -/
def Serial.IsOpen (s : Serial) : Bool := s.is_open

/-- A default-constructed `Serial` (constructor sets `fd_ = -1`,
`is_open_ = false`; `SerialConfig` member defaults are 115200-8-1-N with
a 1000 ms timeout). -/
def Serial.init : Serial :=
  { fd := -1, is_open := false, port_name := "",
    config := ⟨115200, 8, 1, 'N', 1000⟩, last_error := "" }

/-- Environment of one `Serial::Read` call (POSIX branch): the value
returned by `select()` and, when `select` reports readable, the value
returned by `read()`. -/
structure ReadEnv where
  selectResult : Int
  readResult : Int

/-- `Serial::Read(buffer, max_length)` (POSIX branch), as (return value,
resulting object).  Not open yields `-1` with an error; `select() < 0`
yields `-1` with an error; `select() == 0` yields `0` with no error (the
timeout outcome); `read() < 0` yields `-1` with an error; otherwise the
byte count from `read()` is returned with no error. -/
def Serial.Read (s : Serial) (env : ReadEnv) : Int × Serial :=
  if ¬ s.is_open then (-1, s.SetError "Serial port not open")
  else if env.selectResult < 0 then (-1, s.SetError "Select failed")
  else if env.selectResult = 0 then (0, s)
  else if env.readResult < 0 then (-1, s.SetError "Read failed")
  else (env.readResult, s)

/-- C8: on an open port — assuming the OS contract that a readable
`select` is followed by a `read` that yields bytes or an error —
`Serial::Read` returns 0 exactly when the wait timed out, and then the
object (hence its error state) is unchanged; it returns the positive
byte count when bytes arrived in time; it returns a negative value only
for a genuine I/O failure (`select` or `read` failing), or when the port
is not open. -/
theorem serialRead_spec (s : Serial) (env : ReadEnv)
    (hv : 0 < env.selectResult → env.readResult ≠ 0) :
    (s.is_open = true → (((s.Read env).1 = 0) ↔ env.selectResult = 0)) ∧
    (s.is_open = true → env.selectResult = 0 → s.Read env = (0, s)) ∧
    (s.is_open = true → 0 < env.selectResult → 0 < env.readResult →
      s.Read env = (env.readResult, s)) ∧
    (s.is_open = true → (s.Read env).1 < 0 →
      env.selectResult < 0 ∨ env.readResult < 0) ∧
    (s.is_open = false → (s.Read env).1 = -1) := by
  refine ⟨?_, ?_, ?_, ?_, ?_⟩
  · intro ho
    by_cases h1 : env.selectResult < 0
    · simp only [Serial.Read, ho]
      rw [if_neg (by simp), if_pos h1]
      constructor
      · intro h; exact absurd h (by omega)
      · intro h; omega
    · by_cases h2 : env.selectResult = 0
      · simp only [Serial.Read, ho]
        rw [if_neg (by simp), if_neg h1, if_pos h2]
        simp [h2]
      · by_cases h3 : env.readResult < 0
        · simp only [Serial.Read, ho]
          rw [if_neg (by simp), if_neg h1, if_neg h2, if_pos h3]
          constructor
          · intro h; exact absurd h (by omega)
          · intro h; exact absurd h h2
        · simp only [Serial.Read, ho]
          rw [if_neg (by simp), if_neg h1, if_neg h2, if_neg h3]
          have hr := hv (by omega)
          constructor
          · intro h; exact absurd h hr
          · intro h; exact absurd h h2
  · intro ho h2
    simp only [Serial.Read, ho]
    rw [if_neg (by simp), if_neg (by omega), if_pos h2]
  · intro ho h2 h3
    simp only [Serial.Read, ho]
    rw [if_neg (by simp), if_neg (by omega), if_neg (by omega), if_neg (by omega)]
  · intro ho hneg
    by_cases h1 : env.selectResult < 0
    · exact Or.inl h1
    · by_cases h2 : env.selectResult = 0
      · simp only [Serial.Read, ho] at hneg
        rw [if_neg (by simp), if_neg h1, if_pos h2] at hneg
        exact absurd hneg (by omega)
      · by_cases h3 : env.readResult < 0
        · exact Or.inr h3
        · simp only [Serial.Read, ho] at hneg
          rw [if_neg (by simp), if_neg h1, if_neg h2, if_neg h3] at hneg
          simp only at hneg
          omega
  · intro ho
    simp only [Serial.Read, ho]
    rw [if_pos (by simp)]

/-- Witness for `serialRead_spec`: on an open port, a timed-out `select`
yields return value 0 and an unchanged object. -/
theorem serialRead_spec_witness :
    (⟨4, true, "COM3", ⟨115200, 8, 1, 'E', 1000⟩, ""⟩ : Serial).Read ⟨0, 0⟩ =
      (0, (⟨4, true, "COM3", ⟨115200, 8, 1, 'E', 1000⟩, ""⟩ : Serial)) :=
  (serialRead_spec ⟨4, true, "COM3", ⟨115200, 8, 1, 'E', 1000⟩, ""⟩ ⟨0, 0⟩
    (by intro h; exact absurd h (by decide))).2.1 rfl rfl

/-- `Serial::Open`: refuses if already open; otherwise stores the port
name and configuration, then opens the descriptor (`osFd` is what the OS
`open()` returns, `-1` on failure) and configures it (`configOk` is
whether `ConfigurePort` succeeded; on its failure the descriptor is
closed again). -/
def Serial.Open (s : Serial) (port_name : String) (config : SerialConfig)
    (osFd : Int) (configOk : Bool) : Bool × Serial :=
  if s.is_open then (false, s.SetError "Serial port already open")
  else
    let s1 := { s with port_name := port_name, config := config }
    if osFd = -1 then
      (false, s1.SetError ("Failed to open serial port: " ++ port_name))
    else if ¬ configOk then (false, { s1 with fd := -1 })
    else (true, { s1 with fd := osFd, is_open := true })

/-- `Serial::Close`: a no-op unless open; otherwise closes the
descriptor (resetting it to `-1`) and clears the flag. -/
def Serial.Close (s : Serial) : Serial :=
  if ¬ s.is_open then s
  else
    let s1 := if s.fd ≠ -1 then { s with fd := -1 } else s
    { s1 with is_open := false }

/-- C10: `Serial::Close` is idempotent — `Close (Close s) = Close s` for
every state, a closed or never-opened port is left unchanged, and after
any `Close` the port reports not open. -/
theorem serialClose_idempotent (s : Serial) :
    s.Close.Close = s.Close ∧
    s.Close.IsOpen = false ∧
    (s.is_open = false → s.Close = s) ∧
    Serial.init.Close = Serial.init ∧
    Serial.init.IsOpen = false := by
  have hno : ∀ t : Serial, t.is_open = false → t.Close = t := by
    intro t ht
    simp [Serial.Close, ht]
  have hflag : ∀ t : Serial, t.Close.is_open = false := by
    intro t
    by_cases ht : t.is_open = true
    · by_cases hf : t.fd = -1
      · simp [Serial.Close, ht, hf]
      · simp [Serial.Close, ht, hf]
    · have ht' : t.is_open = false := by
        cases h : t.is_open
        · rfl
        · exact absurd h ht
      rw [hno t ht']
      exact ht'
  refine ⟨hno s.Close (hflag s), ?_, hno s, ?_, rfl⟩
  · rw [Serial.IsOpen]
    exact hflag s
  · exact hno Serial.init rfl

/-- Witness for `serialClose_idempotent`: a concrete open port and the
default-constructed port. -/
theorem serialClose_idempotent_witness :
    (⟨5, true, "COM3", ⟨9600, 8, 1, 'N', 1000⟩, ""⟩ : Serial).Close.Close =
      (⟨5, true, "COM3", ⟨9600, 8, 1, 'N', 1000⟩, ""⟩ : Serial).Close ∧
    Serial.init.Close = Serial.init :=
  ⟨(serialClose_idempotent ⟨5, true, "COM3", ⟨9600, 8, 1, 'N', 1000⟩, ""⟩).1,
   (serialClose_idempotent Serial.init).2.2.1 rfl⟩

/-! ## STM32Communicator connection state -/

structure STM32Communicator where
  serial : Serial
  port_name : String
  baud_rate : Int
  is_connected : Bool
  last_error : String
deriving DecidableEq

/-- `STM32Communicator::SetError`. -/
def STM32Communicator.SetError (c : STM32Communicator) (e : String) :
    STM32Communicator :=
  { c with last_error := e }

/-- `STM32Communicator::GetLastError`. -/
def STM32Communicator.GetLastError (c : STM32Communicator) : String :=
  c.last_error

/-- `STM32Communicator::Connect`: refuses when already connected;
otherwise opens the serial port with 8 data bits, 1 stop bit, even
parity and a 1000 ms timeout, and on success records the port name and
baud rate and sets the connected flag. -/
def STM32Communicator.Connect (c : STM32Communicator) (port_name : String)
    (baud_rate : Int) (osFd : Int) (configOk : Bool) :
    Bool × STM32Communicator :=
  if c.is_connected then
    (false, c.SetError "Already connected. Disconnect first.")
  else
    let config : SerialConfig :=
      { baud_rate := baud_rate, data_bits := 8, stop_bits := 1,
        parity := 'E', timeout_ms := 1000 }
    let r := c.serial.Open port_name config osFd configOk
    if ¬ r.1 then
      (false, { c with
        serial := r.2
        last_error := "Failed to open port: " ++ r.2.last_error })
    else
      (true, { c with
        serial := r.2
        port_name := port_name
        baud_rate := baud_rate
        is_connected := true })

/-- C9: calling `Connect` while already connected fails, stores a
retrievable already-connected error, and leaves the existing session
untouched — port name, baud rate, connected flag and the underlying
`Serial` object (including its open state) are exactly as before. -/
theorem connect_already_connected (c : STM32Communicator)
    (port_name : String) (baud_rate osFd : Int) (configOk : Bool)
    (hc : c.is_connected = true) :
    (c.Connect port_name baud_rate osFd configOk).1 = false ∧
    (c.Connect port_name baud_rate osFd configOk).2.GetLastError =
      "Already connected. Disconnect first." ∧
    (c.Connect port_name baud_rate osFd configOk).2.port_name = c.port_name ∧
    (c.Connect port_name baud_rate osFd configOk).2.baud_rate = c.baud_rate ∧
    (c.Connect port_name baud_rate osFd configOk).2.is_connected = true ∧
    (c.Connect port_name baud_rate osFd configOk).2.serial = c.serial := by
  simp [STM32Communicator.Connect, hc, STM32Communicator.SetError,
    STM32Communicator.GetLastError]

/-- Witness for `connect_already_connected` on a concrete connected
communicator. -/
theorem connect_already_connected_witness :
    ((⟨⟨3, true, "/dev/ttyUSB0", ⟨115200, 8, 1, 'E', 1000⟩, ""⟩,
        "/dev/ttyUSB0", 115200, true, ""⟩ : STM32Communicator).Connect
      "/dev/ttyACM1" 9600 7 true).1 = false ∧
    ((⟨⟨3, true, "/dev/ttyUSB0", ⟨115200, 8, 1, 'E', 1000⟩, ""⟩,
        "/dev/ttyUSB0", 115200, true, ""⟩ : STM32Communicator).Connect
      "/dev/ttyACM1" 9600 7 true).2.serial =
      (⟨3, true, "/dev/ttyUSB0", ⟨115200, 8, 1, 'E', 1000⟩, ""⟩ : Serial) := by
  have h := connect_already_connected
    ⟨⟨3, true, "/dev/ttyUSB0", ⟨115200, 8, 1, 'E', 1000⟩, ""⟩,
      "/dev/ttyUSB0", 115200, true, ""⟩ "/dev/ttyACM1" 9600 7 true rfl
  exact ⟨h.1, h.2.2.2.2.2⟩

end SimpleSerial
